import Mathlib

/-!
Shallow embedding of the toy-txn-engine ledger (src/ledger.rs, src/account.rs,
src/transaction.rs, src/record.rs).  Rust `u128` values are modelled as `Nat`
with explicit `< 2 ^ 128` checks at every `checked_add` / `checked_sub` /
`checked_mul`, `HashMap` as an association list whose `insert` conses in front
(lookup semantics agree with the Rust map), `HashSet<u32>` as `Finset Nat`,
and fallible Rust functions as `Except`.  On an error path the Rust code may
leave a partially mutated ledger behind, but the caller (`the_app`) propagates
the error with `?` and the run aborts, so only the returned error is modelled.
-/

namespace ToyTxn

/-- Exclusive upper bound of Rust `u128`. -/
def U128 : Nat := 2 ^ 128

/-- Rust `u128::checked_add`. -/
def checked_add (a b : Nat) : Option Nat :=
  if a + b < U128 then some (a + b) else none

/-- Rust `u128::checked_sub`. -/
def checked_sub (a b : Nat) : Option Nat :=
  if b ≤ a then some (a - b) else none

/-- Rust `u128::checked_mul` specialised to the factor 10000 used in
`amount_from_string` (src/record.rs line 32). -/
def checked_mul10000 (a : Nat) : Option Nat :=
  if a * 10000 < U128 then some (a * 10000) else none

/-- `ProcessEvent` (src/events.rs). -/
inductive ProcessEvent where
  | ProcessComplete : ProcessEvent
  | ExternalErr : String → ProcessEvent
deriving DecidableEq

/-- `Account` (src/account.rs lines 5-11). -/
structure Account where
  available : Nat
  held : Nat
  disputes : Finset Nat
  frozen : Bool
deriving DecidableEq

/-- `Account::new` (src/account.rs lines 14-25). -/
def Account.new : Account := ⟨0, 0, ∅, false⟩

/-- `Account::add_available` (src/account.rs lines 27-34). -/
def Account.add_available (acc : Account) (amount : Nat) : Except ProcessEvent Account :=
  match checked_add acc.available amount with
  | some nb => .ok { acc with available := nb }
  | none => .error (.ExternalErr ("limit exceeded"))

/-- `Account::sub_available` (src/account.rs lines 36-43). -/
def Account.sub_available (acc : Account) (amount : Nat) : Except ProcessEvent Account :=
  match checked_sub acc.available amount with
  | some nb => .ok { acc with available := nb }
  | none => .error (.ExternalErr ("insufficient funds"))

/-- `Account::add_held` (src/account.rs lines 45-52). -/
def Account.add_held (acc : Account) (amount : Nat) : Except ProcessEvent Account :=
  match checked_add acc.held amount with
  | some nb => .ok { acc with held := nb }
  | none => .error (.ExternalErr ("limit exceeded"))

/-- `Account::sub_held` (src/account.rs lines 54-61). -/
def Account.sub_held (acc : Account) (amount : Nat) : Except ProcessEvent Account :=
  match checked_sub acc.held amount with
  | some nb => .ok { acc with held := nb }
  | none => .error (.ExternalErr ("insufficient funds"))

/-- `Account::freeze` (src/account.rs lines 63-65). -/
def Account.freeze (acc : Account) : Account := { acc with frozen := true }

/-- `Account::total` (src/account.rs lines 67-75); saturates at `u128::MAX`. -/
def Account.total (acc : Account) : Nat :=
  match checked_add acc.available acc.held with
  | some t => t
  | none => U128 - 1

/-- `Txn` (src/transaction.rs lines 3-27).  `client_id` is `u16` and `txn_id`
is `u32` in Rust; both are embedded as `Nat` (no arithmetic is ever performed
on them, they are only compared for equality). -/
inductive Txn where
  | Deposit (client_id txn_id amount : Nat)
  | Withdraw (client_id txn_id amount : Nat)
  | Dispute (client_id txn_id : Nat)
  | Resolve (client_id txn_id : Nat)
  | ChargeBack (client_id txn_id : Nat)
deriving DecidableEq

/-- `Txn::client_id` (src/transaction.rs lines 45-53). -/
def Txn.client_id : Txn → Nat
  | .Deposit c _ _ => c
  | .Withdraw c _ _ => c
  | .Dispute c _ => c
  | .Resolve c _ => c
  | .ChargeBack c _ => c

/-- `Txn::txn_id` (src/transaction.rs lines 55-63). -/
def Txn.txn_id : Txn → Nat
  | .Deposit _ t _ => t
  | .Withdraw _ t _ => t
  | .Dispute _ t => t
  | .Resolve _ t => t
  | .ChargeBack _ t => t

/-- `Txn::amount` (src/transaction.rs lines 65-71): 0 for the dispute family. -/
def Txn.amount : Txn → Nat
  | .Deposit _ _ a => a
  | .Withdraw _ _ a => a
  | _ => 0

/-- Does this transaction kind get recorded in the history map?  Only
deposits and withdrawals are (src/ledger.rs lines 41 and 65). -/
def Txn.isHistBearing : Txn → Bool
  | .Deposit _ _ _ => true
  | .Withdraw _ _ _ => true
  | _ => false

/-- Lookup in the association-list embedding of a Rust `HashMap`. -/
def mlookup {α : Type} : List (Nat × α) → Nat → Option α
  | [], _ => none
  | (k, v) :: rest, k' => if k = k' then some v else mlookup rest k'

/-- Insert in the association-list embedding of a Rust `HashMap`: cons in
front, so a later insert with the same key shadows the earlier entry, exactly
as `HashMap::insert` overwrites it. -/
def minsert {α : Type} (m : List (Nat × α)) (k : Nat) (v : α) : List (Nat × α) :=
  (k, v) :: m

/-- `Ledger` (src/ledger.rs lines 5-8). -/
structure Ledger where
  accounts : List (Nat × Account)
  txn_history : List (Nat × Txn)
deriving DecidableEq

/-- `Ledger::new` (src/ledger.rs lines 11-16). -/
def Ledger.new : Ledger := ⟨[], []⟩

/-- The account an operation works on: the Rust `entry(c).or_insert(Account::new())`
reads the stored account for client `c`, or a fresh one when absent. -/
def Ledger.acct (s : Ledger) (c : Nat) : Account :=
  (mlookup s.accounts c).getD Account.new

/-- The Rust `?` operator on a `Result`: propagate the error, or continue
with the success value. -/
def qmark {e a b : Type} (x : Except e a) (f : a → Except e b) : Except e b :=
  match x with
  | .error err => .error err
  | .ok v => f v

/-- The `is_err()`-and-ignore pattern of `deposit`/`withdraw` (src/ledger.rs
lines 37 and 61): keep the updated account on success, keep the old account
when the arithmetic failed. -/
def orElseKeep (x : Except ProcessEvent Account) (acc : Account) : Account :=
  match x with
  | .ok a => a
  | .error _ => acc

/-- `Ledger::deposit` (src/ledger.rs lines 29-43).  `entry().or_insert` is
embedded as lookup-with-default followed by re-insertion of the (possibly
updated) account.  Both the frozen case and the `add_available` failure are
swallowed (`is_err()` with an empty handler); the record is always inserted
into the history and the function always returns `Ok`. -/
def Ledger.deposit (s : Ledger) (txn : Txn) : Except ProcessEvent Ledger :=
  .ok { accounts := minsert s.accounts txn.client_id
          (if (s.acct txn.client_id).frozen then s.acct txn.client_id
           else orElseKeep ((s.acct txn.client_id).add_available txn.amount) (s.acct txn.client_id)),
        txn_history := minsert s.txn_history txn.txn_id txn }

/-- `Ledger::withdraw` (src/ledger.rs lines 53-67); same shape as `deposit`
with `sub_available`. -/
def Ledger.withdraw (s : Ledger) (txn : Txn) : Except ProcessEvent Ledger :=
  .ok { accounts := minsert s.accounts txn.client_id
          (if (s.acct txn.client_id).frozen then s.acct txn.client_id
           else orElseKeep ((s.acct txn.client_id).sub_available txn.amount) (s.acct txn.client_id)),
        txn_history := minsert s.txn_history txn.txn_id txn }

/-- `Ledger::dispute` (src/ledger.rs lines 72-92).  A missing reference or a
non-Deposit reference is ignored; arithmetic failures propagate with `?`. -/
def Ledger.dispute (s : Ledger) (txn : Txn) : Except ProcessEvent Ledger :=
  match mlookup s.txn_history txn.txn_id with
  | some (Txn.Deposit c _ a) =>
    qmark ((s.acct c).sub_available a) (fun acc1 =>
      qmark (acc1.add_held a) (fun acc2 =>
        .ok { s with accounts :=
                minsert s.accounts c { acc2 with disputes := insert txn.txn_id acc2.disputes } }))
  | _ => .ok s

/-- `Ledger::resolve` (src/ledger.rs lines 99-118).  Note that the Rust code
calls `entry().or_insert` before the dispute-set test, so even the ignored
branch re-inserts the (unchanged or freshly created) account. -/
def Ledger.resolve (s : Ledger) (txn : Txn) : Except ProcessEvent Ledger :=
  match mlookup s.txn_history txn.txn_id with
  | none => .ok s
  | some ref =>
    if txn.txn_id ∈ (s.acct ref.client_id).disputes then
      qmark ((s.acct ref.client_id).sub_held ref.amount) (fun acc1 =>
        qmark (acc1.add_available ref.amount) (fun acc2 =>
          .ok { s with accounts :=
                  minsert s.accounts ref.client_id { acc2 with disputes := acc2.disputes.erase txn.txn_id } }))
    else
      .ok { s with accounts := minsert s.accounts ref.client_id (s.acct ref.client_id) }

/-- `Ledger::chargeback` (src/ledger.rs lines 125-145). -/
def Ledger.chargeback (s : Ledger) (txn : Txn) : Except ProcessEvent Ledger :=
  match mlookup s.txn_history txn.txn_id with
  | none => .ok s
  | some ref =>
    if txn.txn_id ∈ (s.acct ref.client_id).disputes then
      qmark ((s.acct ref.client_id).sub_held ref.amount) (fun acc1 =>
        .ok { s with accounts :=
                minsert s.accounts ref.client_id (Account.freeze { acc1 with disputes := acc1.disputes.erase txn.txn_id }) })
    else
      .ok { s with accounts := minsert s.accounts ref.client_id (s.acct ref.client_id) }

/-- `Ledger::add_tx_to_account` (src/ledger.rs lines 147-156). -/
def Ledger.add_tx_to_account (s : Ledger) (txn : Txn) : Except ProcessEvent Ledger :=
  match txn with
  | .Deposit _ _ _ => s.deposit txn
  | .Withdraw _ _ _ => s.withdraw txn
  | .Dispute _ _ => s.dispute txn
  | .Resolve _ _ => s.resolve txn
  | .ChargeBack _ _ => s.chargeback txn

/-- The processing loop of `the_app` (src/application.rs lines 26-29) over a
list of already-typed transactions: each `process_transaction` result is
propagated with `?`, so the first error aborts the run. -/
def Ledger.processAll (s : Ledger) : List Txn → Except ProcessEvent Ledger
  | [] => .ok s
  | txn :: rest =>
    match s.add_tx_to_account txn with
    | .error e => .error e
    | .ok s' => s'.processAll rest

/-! The amount codec: `amount_from_string` (src/record.rs lines 13-54) and
`Txn::u128_to_decimal_str` (src/transaction.rs lines 32-43).  Rust strings
are embedded as `List Char`. -/

/-- Is `c` an ASCII digit (`0` through `9`), by code point. -/
def isDig (c : Char) : Bool := 48 ≤ c.toNat && c.toNat ≤ 57

/-- Numeric value of an ASCII digit character. -/
def digitVal (c : Char) : Nat := c.toNat - 48

/-- The number denoted by a big-endian list of ASCII digit characters. -/
def digitsToNat (l : List Char) : Nat :=
  l.foldl (fun a c => a * 10 + digitVal c) 0

/-- Rust `str::split('.')` as used in src/record.rs line 22: the pieces of
the string between the dots (an empty string yields one empty piece). -/
def splitDot : List Char → List (List Char)
  | [] => [[]]
  | c :: rest =>
    if c = '.' then [] :: splitDot rest
    else (c :: (splitDot rest).headI) :: (splitDot rest).tail

/-- The sign handling of Rust `str::parse::<u128>`: one leading `+` is
accepted and skipped. -/
def stripPlus : List Char → List Char
  | [] => []
  | c :: rest => if c = '+' then rest else c :: rest

/-- Rust `str::parse::<u128>`: after skipping one optional leading `+`, the
rest must be a nonempty run of ASCII digits denoting a value below `2 ^ 128`;
anything else is an error (`none`). -/
def rustParseU128 (s : List Char) : Option Nat :=
  if (stripPlus s).isEmpty then none
  else if (stripPlus s).all isDig then
    if digitsToNat (stripPlus s) < U128 then some (digitsToNat (stripPlus s)) else none
  else none

/-- `amount_from_string` (src/record.rs lines 13-54), after serde has handed
it the raw field string.  An empty field is absence (`ok none`); a dot-free
string is an integer scaled by 10000 with `checked_mul`; with exactly one dot
the integer part is concatenated with the first four fractional characters
(missing ones padded with `0`, further ones truncated) and parsed; any other
shape is a deserialisation error. -/
def amount_from_string (s : List Char) : Except String (Option Nat) :=
  if s.isEmpty then .ok none
  else
    match splitDot s with
    | [_whole] =>
      match rustParseU128 s with
      | none => .error ("failed to parse decimal")
      | some parsed =>
        match checked_mul10000 parsed with
        | some val => .ok (some val)
        | none => .error ("failed to parse decimal: limit exceeded")
    | [before_point, after_point] =>
      let char0 := after_point.getD 0 '0'
      let char1 := after_point.getD 1 '0'
      let char2 := after_point.getD 2 '0'
      let char3 := after_point.getD 3 '0'
      match rustParseU128 (before_point ++ [char0, char1, char2, char3]) with
      | some val => .ok (some val)
      | none => .error ("failed to parse decimal")
    | _ => .error ("failed to parse decimal")

instance {e a : Type} [DecidableEq e] [DecidableEq a] : DecidableEq (Except e a) := fun x y =>
  match x, y with
  | .ok v, .ok w =>
    if h : v = w then isTrue (by rw [h]) else isFalse (by intro hc; cases hc; exact h rfl)
  | .error v, .error w =>
    if h : v = w then isTrue (by rw [h]) else isFalse (by intro hc; cases hc; exact h rfl)
  | .ok _, .error _ => isFalse (by intro hc; cases hc)
  | .error _, .ok _ => isFalse (by intro hc; cases hc)

/-- Little helper for `natRepr`: peel decimal digits into an accumulator,
exactly as Rust's integer `Display` renders a `u128`. -/
def natReprAux (n : Nat) (acc : List Char) : List Char :=
  if n < 10 then Nat.digitChar n :: acc
  else natReprAux (n / 10) (Nat.digitChar (n % 10) :: acc)
decreasing_by exact Nat.div_lt_self (by omega) (by omega)

/-- Rust `format!` of a `u128`: its decimal digits, `"0"` for zero. -/
def natRepr (n : Nat) : List Char := natReprAux n []

/-- Exactly `k` decimal digit characters for `f` (zero-padded on the left);
used to describe the fractional block of the formatter. -/
def natDigitsFix : Nat → Nat → List Char
  | 0, _ => []
  | k + 1, f => natDigitsFix k (f / 10) ++ [Nat.digitChar (f % 10)]

/-- The `{:0>4}` padding of src/transaction.rs line 33: pad on the left with
`0` to length at least 4. -/
def padLeft4 (l : List Char) : List Char := List.replicate (4 - l.length) '0' ++ l

/-- `Txn::u128_to_decimal_str` (src/transaction.rs lines 32-43).  The Rust
locals are inlined: `as_str` is `padLeft4 (natRepr n)`, the split position is
`as_str.length - 4`, `_units`/`decimals` are the `take`/`drop` at that
position, and an empty units part is rendered as `"0"`.  The Rust function
returns `Result` but never the error arm, so the string itself is the
embedding. -/
def u128_to_decimal_str (n : Nat) : List Char :=
  (if ((padLeft4 (natRepr n)).take ((padLeft4 (natRepr n)).length - 4)).isEmpty
   then ['0']
   else (padLeft4 (natRepr n)).take ((padLeft4 (natRepr n)).length - 4))
  ++ '.' :: (padLeft4 (natRepr n)).drop ((padLeft4 (natRepr n)).length - 4)

/-! Concrete sample ledgers used by the witnesses below. -/

/-- One client (id 2) holding 10 available, with a deposit of 5 (txn 1) and a
withdrawal of 4 (txn 3) in the history. -/
def sample1 : Ledger :=
  ⟨[(2, ⟨10, 0, ∅, false⟩)], [(1, Txn.Deposit 2 1 5), (3, Txn.Withdraw 2 3 4)]⟩

/-- Client 1 frozen with 3 available; client 2 one unit below `u128::MAX`. -/
def sample2 : Ledger :=
  ⟨[(1, ⟨3, 0, ∅, true⟩), (2, ⟨U128 - 1, 0, ∅, false⟩)], []⟩

/-- A deposit of 5 in the history whose owner account does not exist yet
(so its available balance reads as 0). -/
def sample3 : Ledger := ⟨[], [(1, Txn.Deposit 1 1 5)]⟩

/-- Transaction 1 is marked disputed but the account holds only 2: the
resolve/chargeback arithmetic on `held` must underflow. -/
def sample4 : Ledger := ⟨[(1, ⟨0, 2, {1}, false⟩)], [(1, Txn.Deposit 1 1 5)]⟩

/-- A frozen account with an open dispute on txn 2 (deposit of 5). -/
def sample5 : Ledger := ⟨[(1, ⟨7, 5, {2}, true⟩)], [(2, Txn.Deposit 1 2 5)]⟩

/-- Transaction 1 (deposit of 5) is already disputed and the account can pay
again: available 5, held 5. -/
def sample6 : Ledger := ⟨[(1, ⟨5, 5, {1}, false⟩)], [(1, Txn.Deposit 1 1 5)]⟩

/-- Transaction 1 (deposit of 5) is already disputed but only 3 available is
left. -/
def sample7 : Ledger := ⟨[(1, ⟨3, 1, {1}, false⟩)], [(1, Txn.Deposit 1 1 5)]⟩

/-! Map lemmas: lookup after insert. -/

theorem mlookup_minsert_self {α : Type} (m : List (Nat × α)) (k : Nat) (v : α) :
    mlookup (minsert m k v) k = some v := by
  simp [minsert, mlookup]

theorem mlookup_minsert_ne {α : Type} (m : List (Nat × α)) (k k' : Nat) (v : α)
    (h : k ≠ k') : mlookup (minsert m k v) k' = mlookup m k' := by
  simp [minsert, mlookup, h]

/-! Reduction lemmas for the combinators and the account arithmetic. -/

theorem qmark_ok {e a b : Type} (v : a) (f : a → Except e b) :
    qmark (.ok v) f = f v := rfl

theorem qmark_error {e a b : Type} (err : e) (f : a → Except e b) :
    qmark (.error err : Except e a) f = .error err := rfl

theorem orElseKeep_ok (v : Account) (acc : Account) :
    orElseKeep (.ok v) acc = v := rfl

theorem orElseKeep_error (err : ProcessEvent) (acc : Account) :
    orElseKeep (.error err) acc = acc := rfl

theorem add_available_ok (acc : Account) (amount : Nat)
    (h : acc.available + amount < U128) :
    acc.add_available amount = .ok { acc with available := acc.available + amount } := by
  unfold Account.add_available checked_add
  rw [if_pos h]

theorem add_available_err (acc : Account) (amount : Nat)
    (h : U128 ≤ acc.available + amount) :
    acc.add_available amount = .error (.ExternalErr ("limit exceeded")) := by
  unfold Account.add_available checked_add
  rw [if_neg (by omega)]

theorem sub_available_ok (acc : Account) (amount : Nat)
    (h : amount ≤ acc.available) :
    acc.sub_available amount = .ok { acc with available := acc.available - amount } := by
  unfold Account.sub_available checked_sub
  rw [if_pos h]

theorem sub_available_err (acc : Account) (amount : Nat)
    (h : acc.available < amount) :
    acc.sub_available amount = .error (.ExternalErr ("insufficient funds")) := by
  unfold Account.sub_available checked_sub
  rw [if_neg (by omega)]

theorem add_held_ok (acc : Account) (amount : Nat)
    (h : acc.held + amount < U128) :
    acc.add_held amount = .ok { acc with held := acc.held + amount } := by
  unfold Account.add_held checked_add
  rw [if_pos h]

theorem add_held_err (acc : Account) (amount : Nat)
    (h : U128 ≤ acc.held + amount) :
    acc.add_held amount = .error (.ExternalErr ("limit exceeded")) := by
  unfold Account.add_held checked_add
  rw [if_neg (by omega)]

theorem sub_held_ok (acc : Account) (amount : Nat)
    (h : amount ≤ acc.held) :
    acc.sub_held amount = .ok { acc with held := acc.held - amount } := by
  unfold Account.sub_held checked_sub
  rw [if_pos h]

theorem sub_held_err (acc : Account) (amount : Nat)
    (h : acc.held < amount) :
    acc.sub_held amount = .error (.ExternalErr ("insufficient funds")) := by
  unfold Account.sub_held checked_sub
  rw [if_neg (by omega)]

/-! Success- and failure-shape lemmas for each ledger operation, shared by the
claim theorems below. -/

theorem deposit_frozen (s : Ledger) (txn : Txn) (h : (s.acct txn.client_id).frozen = true) :
    Ledger.deposit s txn = .ok
      { accounts := minsert s.accounts txn.client_id (s.acct txn.client_id),
        txn_history := minsert s.txn_history txn.txn_id txn } := by
  unfold Ledger.deposit
  rw [if_pos h]

theorem deposit_ovf (s : Ledger) (txn : Txn) (h : (s.acct txn.client_id).frozen = false)
    (hovf : U128 ≤ (s.acct txn.client_id).available + txn.amount) :
    Ledger.deposit s txn = .ok
      { accounts := minsert s.accounts txn.client_id (s.acct txn.client_id),
        txn_history := minsert s.txn_history txn.txn_id txn } := by
  unfold Ledger.deposit
  rw [if_neg (by rw [h]; exact Bool.false_ne_true), add_available_err _ _ hovf, orElseKeep_error]

theorem deposit_ok (s : Ledger) (txn : Txn) (h : (s.acct txn.client_id).frozen = false)
    (hadd : (s.acct txn.client_id).available + txn.amount < U128) :
    Ledger.deposit s txn = .ok
      { accounts := minsert s.accounts txn.client_id
          { s.acct txn.client_id with
              available := (s.acct txn.client_id).available + txn.amount },
        txn_history := minsert s.txn_history txn.txn_id txn } := by
  unfold Ledger.deposit
  rw [if_neg (by rw [h]; exact Bool.false_ne_true), add_available_ok _ _ hadd, orElseKeep_ok]

theorem withdraw_frozen (s : Ledger) (txn : Txn) (h : (s.acct txn.client_id).frozen = true) :
    Ledger.withdraw s txn = .ok
      { accounts := minsert s.accounts txn.client_id (s.acct txn.client_id),
        txn_history := minsert s.txn_history txn.txn_id txn } := by
  unfold Ledger.withdraw
  rw [if_pos h]

theorem dispute_success (s : Ledger) (cd t c tid a : Nat)
    (hhist : mlookup s.txn_history t = some (Txn.Deposit c tid a))
    (hav : a ≤ (s.acct c).available)
    (hheld : (s.acct c).held + a < U128) :
    Ledger.dispute s (Txn.Dispute cd t) = .ok
      { s with accounts := minsert s.accounts c
                              ({ available := (s.acct c).available - a, held := (s.acct c).held + a,
                                 disputes := insert t (s.acct c).disputes, frozen := (s.acct c).frozen }) } := by
  unfold Ledger.dispute
  simp only [Txn.txn_id, hhist]
  rw [sub_available_ok _ _ hav]
  simp only [qmark_ok]
  rw [add_held_ok _ _ (by simpa using hheld)]
  simp only [qmark_ok]

theorem dispute_fail (s : Ledger) (cd t c tid a : Nat)
    (hhist : mlookup s.txn_history t = some (Txn.Deposit c tid a))
    (hfail : (s.acct c).available < a ∨ U128 ≤ (s.acct c).held + a) :
    ∃ e, Ledger.dispute s (Txn.Dispute cd t) = .error e := by
  unfold Ledger.dispute
  simp only [Txn.txn_id, hhist]
  by_cases hav : a ≤ (s.acct c).available
  · rw [sub_available_ok _ _ hav]
    simp only [qmark_ok]
    rw [add_held_err _ _ (by simp only [Account.held]; rcases hfail with h | h; omega; exact h)]
    exact ⟨_, rfl⟩
  · rw [sub_available_err _ _ (by omega)]
    exact ⟨_, rfl⟩

theorem dispute_skip (s : Ledger) (cd t : Nat)
    (h : mlookup s.txn_history t = none ∨
         ∃ c tid a, mlookup s.txn_history t = some (Txn.Withdraw c tid a)) :
    Ledger.dispute s (Txn.Dispute cd t) = .ok s := by
  unfold Ledger.dispute
  rcases h with h | ⟨c, tid, a, h⟩ <;> simp only [Txn.txn_id, h]

theorem resolve_success (s : Ledger) (cr t : Nat) (ref : Txn)
    (hhist : mlookup s.txn_history t = some ref)
    (hdisp : t ∈ (s.acct ref.client_id).disputes)
    (hheld : ref.amount ≤ (s.acct ref.client_id).held)
    (hav : (s.acct ref.client_id).available + ref.amount < U128) :
    Ledger.resolve s (Txn.Resolve cr t) = .ok
      { s with accounts := minsert s.accounts ref.client_id
                              ({ available := (s.acct ref.client_id).available + ref.amount,
                                 held := (s.acct ref.client_id).held - ref.amount,
                                 disputes := (s.acct ref.client_id).disputes.erase t,
                                 frozen := (s.acct ref.client_id).frozen }) } := by
  unfold Ledger.resolve
  simp only [Txn.txn_id, hhist]
  rw [if_pos hdisp, sub_held_ok _ _ hheld]
  simp only [qmark_ok]
  rw [add_available_ok _ _ (by simpa using hav)]
  simp only [qmark_ok]

theorem resolve_fail (s : Ledger) (cr t : Nat) (ref : Txn)
    (hhist : mlookup s.txn_history t = some ref)
    (hdisp : t ∈ (s.acct ref.client_id).disputes)
    (hfail : (s.acct ref.client_id).held < ref.amount ∨
             U128 ≤ (s.acct ref.client_id).available + ref.amount) :
    ∃ e, Ledger.resolve s (Txn.Resolve cr t) = .error e := by
  unfold Ledger.resolve
  simp only [Txn.txn_id, hhist]
  rw [if_pos hdisp]
  by_cases hheld : ref.amount ≤ (s.acct ref.client_id).held
  · rw [sub_held_ok _ _ hheld]
    simp only [qmark_ok]
    rw [add_available_err _ _ (by simp only [Account.available]; rcases hfail with h | h; omega; exact h)]
    exact ⟨_, rfl⟩
  · rw [sub_held_err _ _ (by omega)]
    exact ⟨_, rfl⟩

theorem chargeback_success (s : Ledger) (cb t : Nat) (ref : Txn)
    (hhist : mlookup s.txn_history t = some ref)
    (hdisp : t ∈ (s.acct ref.client_id).disputes)
    (hheld : ref.amount ≤ (s.acct ref.client_id).held) :
    Ledger.chargeback s (Txn.ChargeBack cb t) = .ok
      { s with accounts := minsert s.accounts ref.client_id
                              ({ available := (s.acct ref.client_id).available,
                                 held := (s.acct ref.client_id).held - ref.amount,
                                 disputes := (s.acct ref.client_id).disputes.erase t,
                                 frozen := true }) } := by
  unfold Ledger.chargeback
  simp only [Txn.txn_id, hhist]
  rw [if_pos hdisp, sub_held_ok _ _ hheld]
  simp only [qmark_ok]
  rfl

theorem chargeback_fail (s : Ledger) (cb t : Nat) (ref : Txn)
    (hhist : mlookup s.txn_history t = some ref)
    (hdisp : t ∈ (s.acct ref.client_id).disputes)
    (hheld : (s.acct ref.client_id).held < ref.amount) :
    ∃ e, Ledger.chargeback s (Txn.ChargeBack cb t) = .error e := by
  unfold Ledger.chargeback
  simp only [Txn.txn_id, hhist]
  rw [if_pos hdisp, sub_held_err _ _ hheld]
  exact ⟨_, rfl⟩

theorem processAll_cons_err (s : Ledger) (txn : Txn) (rest : List Txn) (e : ProcessEvent)
    (h : s.add_tx_to_account txn = .error e) :
    Ledger.processAll s (txn :: rest) = .error e := by
  unfold Ledger.processAll
  rw [h]

theorem qmark_eq_ok {e a b : Type} (x : Except e a) (f : a → Except e b) (r : b)
    (h : qmark x f = .ok r) : ∃ v, x = .ok v ∧ f v = .ok r := by
  cases x with
  | error err => simp [qmark] at h
  | ok v => exact ⟨v, rfl, h⟩

theorem dispute_ok_hist (s : Ledger) (txn : Txn) (s' : Ledger)
    (h : Ledger.dispute s txn = .ok s') : s'.txn_history = s.txn_history := by
  unfold Ledger.dispute at h
  split at h
  · obtain ⟨v1, hx1, h⟩ := qmark_eq_ok _ _ _ h
    obtain ⟨v2, hx2, h⟩ := qmark_eq_ok _ _ _ h
    injection h with h2
    subst h2
    rfl
  · injection h with h2
    subst h2
    rfl

theorem resolve_ok_hist (s : Ledger) (txn : Txn) (s' : Ledger)
    (h : Ledger.resolve s txn = .ok s') : s'.txn_history = s.txn_history := by
  unfold Ledger.resolve at h
  split at h
  · injection h with h2
    subst h2
    rfl
  · split at h
    · obtain ⟨v1, hx1, h⟩ := qmark_eq_ok _ _ _ h
      obtain ⟨v2, hx2, h⟩ := qmark_eq_ok _ _ _ h
      injection h with h2
      subst h2
      rfl
    · injection h with h2
      subst h2
      rfl

theorem chargeback_ok_hist (s : Ledger) (txn : Txn) (s' : Ledger)
    (h : Ledger.chargeback s txn = .ok s') : s'.txn_history = s.txn_history := by
  unfold Ledger.chargeback at h
  split at h
  · injection h with h2
    subst h2
    rfl
  · split at h
    · obtain ⟨v1, hx1, h⟩ := qmark_eq_ok _ _ _ h
      injection h with h2
      subst h2
      rfl
    · injection h with h2
      subst h2
      rfl

theorem add_tx_hist (s : Ledger) (u : Txn) (s' : Ledger) (t : Nat) (tx : Txn)
    (h : s.add_tx_to_account u = .ok s')
    (hid : u.isHistBearing = true → u.txn_id ≠ t)
    (hmem : mlookup s.txn_history t = some tx) :
    mlookup s'.txn_history t = some tx := by
  cases u with
  | Deposit c i a =>
    unfold Ledger.add_tx_to_account Ledger.deposit at h
    injection h with h2
    subst h2
    exact (mlookup_minsert_ne s.txn_history (Txn.Deposit c i a).txn_id t
      (Txn.Deposit c i a) (hid rfl)).trans hmem
  | Withdraw c i a =>
    unfold Ledger.add_tx_to_account Ledger.withdraw at h
    injection h with h2
    subst h2
    exact (mlookup_minsert_ne s.txn_history (Txn.Withdraw c i a).txn_id t
      (Txn.Withdraw c i a) (hid rfl)).trans hmem
  | Dispute c i =>
    rw [dispute_ok_hist s _ s' h]
    exact hmem
  | Resolve c i =>
    rw [resolve_ok_hist s _ s' h]
    exact hmem
  | ChargeBack c i =>
    rw [chargeback_ok_hist s _ s' h]
    exact hmem

/-! Claim theorems. -/

/-- Claim C1, counterexample: starting from the empty ledger, client 1
deposits 5 (txn 1) and withdraws 5 (txn 2), so the history maps txn 1 to a
deposit of 5 owned by client 1 while the account's available is 0.  The
claim predicts that a dispute of txn 1 subtracts 5 from available and adds 5
to held; instead `sub_available` underflows and the run aborts with a hard
error — no mutation of the claimed shape happens. -/
theorem dispute_underfunded_deposit_errors :
    Ledger.processAll Ledger.new [Txn.Deposit 1 1 5, Txn.Withdraw 1 2 5, Txn.Dispute 3 1]
      = .error (.ExternalErr ("insufficient funds")) := by
  rfl

/-- Claim C1 (amended): if the history maps `t` to a deposit of `a` owned by
`c`, and additionally the owning account has at least `a` available and its
held balance can grow by `a` without overflowing `u128`, then disputing `t`
moves `a` from available to held (conserving their sum), inserts `t` into the
dispute set and leaves the history untouched; and if `t` is absent from the
history or maps to a withdrawal, the dispute leaves the whole ledger state
unchanged and surfaces no error. -/
theorem dispute_effect_and_skip :
    (∀ (s : Ledger) (cd t c tid a : Nat),
      mlookup s.txn_history t = some (Txn.Deposit c tid a) →
      a ≤ (s.acct c).available →
      (s.acct c).held + a < U128 →
      ∃ s', Ledger.dispute s (Txn.Dispute cd t) = .ok s' ∧
        mlookup s'.accounts c = some
          ({ available := (s.acct c).available - a, held := (s.acct c).held + a,
             disputes := insert t (s.acct c).disputes, frozen := (s.acct c).frozen }) ∧
        ((s.acct c).available - a) + ((s.acct c).held + a)
          = (s.acct c).available + (s.acct c).held ∧
        s'.txn_history = s.txn_history) ∧
    (∀ (s : Ledger) (cd t : Nat),
      (mlookup s.txn_history t = none ∨
        ∃ c tid a, mlookup s.txn_history t = some (Txn.Withdraw c tid a)) →
      Ledger.dispute s (Txn.Dispute cd t) = .ok s) := by
  constructor
  · intro s cd t c tid a hhist hav hheld
    refine ⟨_, dispute_success s cd t c tid a hhist hav hheld,
      mlookup_minsert_self _ _ _, by omega, rfl⟩
  · intro s cd t h
    exact dispute_skip s cd t h

/-- Witness for C1: both branches of `dispute_effect_and_skip` applied to
`sample1` (deposit of 5 at txn 1 owned by client 2 holding 10; withdrawal at
txn 3). -/
theorem dispute_effect_and_skip_witness :
    (∃ s', Ledger.dispute sample1 (Txn.Dispute 7 1) = .ok s' ∧
      mlookup s'.accounts 2 = some
        ({ available := (sample1.acct 2).available - 5, held := (sample1.acct 2).held + 5,
           disputes := insert 1 (sample1.acct 2).disputes, frozen := (sample1.acct 2).frozen }) ∧
      ((sample1.acct 2).available - 5) + ((sample1.acct 2).held + 5)
        = (sample1.acct 2).available + (sample1.acct 2).held ∧
      s'.txn_history = sample1.txn_history) ∧
    Ledger.dispute sample1 (Txn.Dispute 7 3) = .ok sample1 :=
  ⟨dispute_effect_and_skip.1 sample1 7 1 2 1 5 (by decide) (by decide) (by decide),
   dispute_effect_and_skip.2 sample1 7 3 (Or.inr ⟨2, 3, 4, by decide⟩)⟩

/-- Claim C2, counterexample: depositing 5 to the non-frozen client 2 of
`sample2`, whose available balance is `u128::MAX`, overflows `checked_add`.
The claim says an external error is surfaced to the caller; instead the
deposit returns `Ok` (the failure is swallowed by `is_err()` with an empty
handler), merely leaving the account unchanged and recording the
transaction. -/
theorem deposit_overflow_surfaces_no_error :
    Ledger.deposit sample2 (Txn.Deposit 2 7 5)
      = .ok ({ accounts := (2, ⟨U128 - 1, 0, ∅, false⟩) :: sample2.accounts,
               txn_history := [(7, Txn.Deposit 2 7 5)] }) := by
  rfl

/-- Claim C2 (amended): a deposit to a frozen account, or one whose addition
to available would overflow, mutates no account field and still records the
transaction in history — and in both cases the call completes silently with
`Ok`, surfacing no error (the overflow case included). -/
theorem deposit_frozen_or_overflow_silent :
    ∀ (s : Ledger) (c t a : Nat) (acct : Account),
      mlookup s.accounts c = some acct →
      (acct.frozen = true ∨ (acct.frozen = false ∧ U128 ≤ acct.available + a)) →
      Ledger.deposit s (Txn.Deposit c t a) = .ok
        ({ accounts := minsert s.accounts c acct,
           txn_history := minsert s.txn_history t (Txn.Deposit c t a) }) := by
  intro s c t a acct hl hcase
  have hacct : s.acct ((Txn.Deposit c t a).client_id) = acct := by
    simp [Ledger.acct, Txn.client_id, hl]
  rcases hcase with hf | ⟨hf, hovf⟩
  · rw [deposit_frozen s (Txn.Deposit c t a) (by rw [hacct]; exact hf)]
    rw [hacct]
    rfl
  · rw [deposit_ovf s (Txn.Deposit c t a) (by rw [hacct]; exact hf)
      (by rw [hacct]; exact hovf)]
    rw [hacct]
    rfl

/-- Witness for C2: both branches at `sample2` — a deposit to the frozen
client 1, and an overflowing deposit to client 2. -/
theorem deposit_frozen_or_overflow_silent_witness :
    Ledger.deposit sample2 (Txn.Deposit 1 8 5) = .ok
      ({ accounts := minsert sample2.accounts 1 (⟨3, 0, ∅, true⟩ : Account),
         txn_history := minsert sample2.txn_history 8 (Txn.Deposit 1 8 5) }) ∧
    Ledger.deposit sample2 (Txn.Deposit 2 7 5) = .ok
      ({ accounts := minsert sample2.accounts 2 (⟨U128 - 1, 0, ∅, false⟩ : Account),
         txn_history := minsert sample2.txn_history 7 (Txn.Deposit 2 7 5) }) :=
  ⟨deposit_frozen_or_overflow_silent sample2 1 8 5 ⟨3, 0, ∅, true⟩ (by decide)
      (Or.inl (by decide)),
   deposit_frozen_or_overflow_silent sample2 2 7 5 ⟨U128 - 1, 0, ∅, false⟩ (by decide)
      (Or.inr ⟨by decide, by norm_num [U128]⟩)⟩

/-- Claim C4: the transaction history is append-only.  Over any sequence of
processed transactions in which no later deposit or withdrawal reuses the
transaction ID `t` (the spec's global-uniqueness assumption on `txn_id`;
dispute/resolve/chargeback may reference `t` freely), an existing history
entry for `t` is never removed and never changes. -/
theorem history_append_only :
    ∀ (l : List Txn) (s : Ledger) (t : Nat) (tx : Txn),
      mlookup s.txn_history t = some tx →
      (∀ u ∈ l, u.isHistBearing = true → u.txn_id ≠ t) →
      ∀ s', Ledger.processAll s l = .ok s' →
        mlookup s'.txn_history t = some tx := by
  intro l
  induction l with
  | nil =>
    intro s t tx hmem _ s' h
    unfold Ledger.processAll at h
    injection h with h2
    subst h2
    exact hmem
  | cons u rest ih =>
    intro s t tx hmem hids s' h
    unfold Ledger.processAll at h
    cases hstep : s.add_tx_to_account u with
    | error e =>
      rw [hstep] at h
      exact Except.noConfusion h
    | ok s1 =>
      rw [hstep] at h
      exact ih s1 t tx
        (add_tx_hist s u s1 t tx hstep (hids u (List.mem_cons_self u rest)) hmem)
        (fun v hv => hids v (List.mem_cons_of_mem u hv)) s' h

/-- Witness for C4: in `sample1`, processing a dispute that references the
withdrawal (txn 3) leaves the ledger unchanged, and the history entry for
txn 1 survives. -/
theorem history_append_only_witness :
    mlookup sample1.txn_history 1 = some (Txn.Deposit 2 1 5) :=
  history_append_only [Txn.Dispute 9 3] sample1 1 (Txn.Deposit 2 1 5)
    (by decide) (by decide) sample1 (by decide)

/-- Claim C5: when a dispute, resolve or chargeback passes its lookup (and,
for resolve/chargeback, dispute-set) preconditions but the checked
subtraction or addition on available/held fails, the operation returns a
hard `Err` and the processing loop propagates it, aborting the run. -/
theorem dispute_family_arith_failure_hard_error :
    (∀ (s : Ledger) (cd t c tid a : Nat) (rest : List Txn),
      mlookup s.txn_history t = some (Txn.Deposit c tid a) →
      ((s.acct c).available < a ∨ U128 ≤ (s.acct c).held + a) →
      ∃ e, Ledger.dispute s (Txn.Dispute cd t) = .error e ∧
        Ledger.processAll s (Txn.Dispute cd t :: rest) = .error e) ∧
    (∀ (s : Ledger) (cr t : Nat) (ref : Txn) (rest : List Txn),
      mlookup s.txn_history t = some ref →
      t ∈ (s.acct ref.client_id).disputes →
      ((s.acct ref.client_id).held < ref.amount ∨
        U128 ≤ (s.acct ref.client_id).available + ref.amount) →
      ∃ e, Ledger.resolve s (Txn.Resolve cr t) = .error e ∧
        Ledger.processAll s (Txn.Resolve cr t :: rest) = .error e) ∧
    (∀ (s : Ledger) (cb t : Nat) (ref : Txn) (rest : List Txn),
      mlookup s.txn_history t = some ref →
      t ∈ (s.acct ref.client_id).disputes →
      (s.acct ref.client_id).held < ref.amount →
      ∃ e, Ledger.chargeback s (Txn.ChargeBack cb t) = .error e ∧
        Ledger.processAll s (Txn.ChargeBack cb t :: rest) = .error e) := by
  refine ⟨?_, ?_, ?_⟩
  · intro s cd t c tid a rest hhist hfail
    obtain ⟨e, he⟩ := dispute_fail s cd t c tid a hhist hfail
    exact ⟨e, he, processAll_cons_err s _ rest e he⟩
  · intro s cr t ref rest hhist hdisp hfail
    obtain ⟨e, he⟩ := resolve_fail s cr t ref hhist hdisp hfail
    exact ⟨e, he, processAll_cons_err s _ rest e he⟩
  · intro s cb t ref rest hhist hdisp hheld
    obtain ⟨e, he⟩ := chargeback_fail s cb t ref hhist hdisp hheld
    exact ⟨e, he, processAll_cons_err s _ rest e he⟩

/-- Witness for C5: an underfunded dispute on `sample3`, and an
under-held resolve and chargeback on `sample4`, each aborting a run that
still had a transaction queued behind it. -/
theorem dispute_family_arith_failure_hard_error_witness :
    (∃ e, Ledger.dispute sample3 (Txn.Dispute 1 1) = .error e ∧
      Ledger.processAll sample3 [Txn.Dispute 1 1, Txn.Deposit 1 9 1] = .error e) ∧
    (∃ e, Ledger.resolve sample4 (Txn.Resolve 1 1) = .error e ∧
      Ledger.processAll sample4 [Txn.Resolve 1 1, Txn.Deposit 1 9 1] = .error e) ∧
    (∃ e, Ledger.chargeback sample4 (Txn.ChargeBack 1 1) = .error e ∧
      Ledger.processAll sample4 [Txn.ChargeBack 1 1, Txn.Deposit 1 9 1] = .error e) :=
  ⟨dispute_family_arith_failure_hard_error.1 sample3 1 1 1 1 5 [Txn.Deposit 1 9 1]
      (by decide) (Or.inl (by decide)),
   dispute_family_arith_failure_hard_error.2.1 sample4 1 1 (Txn.Deposit 1 1 5) [Txn.Deposit 1 9 1]
      (by decide) (by decide) (Or.inl (by decide)),
   dispute_family_arith_failure_hard_error.2.2 sample4 1 1 (Txn.Deposit 1 1 5) [Txn.Deposit 1 9 1]
      (by decide) (by decide) (by decide)⟩

/-- Claim C6: a dispute, resolve or chargeback record's own client field has
no effect — two records identical except for their client field produce the
same resulting ledger state, because the operation acts on the account of
the client that owns the referenced transaction in history. -/
theorem dispute_family_client_field_irrelevant :
    ∀ (s : Ledger) (c1 c2 t : Nat),
      Ledger.add_tx_to_account s (Txn.Dispute c1 t)
        = Ledger.add_tx_to_account s (Txn.Dispute c2 t) ∧
      Ledger.add_tx_to_account s (Txn.Resolve c1 t)
        = Ledger.add_tx_to_account s (Txn.Resolve c2 t) ∧
      Ledger.add_tx_to_account s (Txn.ChargeBack c1 t)
        = Ledger.add_tx_to_account s (Txn.ChargeBack c2 t) :=
  fun _ _ _ _ => ⟨rfl, rfl, rfl⟩

/-- Claim C7: the frozen flag blocks only deposit and withdrawal (their
balances stay untouched, though the transaction is still recorded), while a
resolve or chargeback referencing a transaction in the frozen account's
dispute set still applies its full normal effect. -/
theorem frozen_blocks_only_deposit_withdraw :
    (∀ (s : Ledger) (c t a : Nat) (acct : Account),
      mlookup s.accounts c = some acct → acct.frozen = true →
      Ledger.deposit s (Txn.Deposit c t a) = .ok
        ({ accounts := minsert s.accounts c acct,
           txn_history := minsert s.txn_history t (Txn.Deposit c t a) }) ∧
      Ledger.withdraw s (Txn.Withdraw c t a) = .ok
        ({ accounts := minsert s.accounts c acct,
           txn_history := minsert s.txn_history t (Txn.Withdraw c t a) })) ∧
    (∀ (s : Ledger) (cr t : Nat) (ref : Txn) (acct : Account),
      mlookup s.accounts ref.client_id = some acct → acct.frozen = true →
      mlookup s.txn_history t = some ref →
      t ∈ acct.disputes → ref.amount ≤ acct.held →
      acct.available + ref.amount < U128 →
      Ledger.resolve s (Txn.Resolve cr t) = .ok
        ({ s with accounts := minsert s.accounts ref.client_id
                                (⟨acct.available + ref.amount, acct.held - ref.amount,
                                  acct.disputes.erase t, acct.frozen⟩ : Account) })) ∧
    (∀ (s : Ledger) (cb t : Nat) (ref : Txn) (acct : Account),
      mlookup s.accounts ref.client_id = some acct → acct.frozen = true →
      mlookup s.txn_history t = some ref →
      t ∈ acct.disputes → ref.amount ≤ acct.held →
      Ledger.chargeback s (Txn.ChargeBack cb t) = .ok
        ({ s with accounts := minsert s.accounts ref.client_id
                                (⟨acct.available, acct.held - ref.amount,
                                  acct.disputes.erase t, true⟩ : Account) })) := by
  refine ⟨?_, ?_, ?_⟩
  · intro s c t a acct hl hf
    have hacct : s.acct ((Txn.Deposit c t a).client_id) = acct := by
      simp [Ledger.acct, Txn.client_id, hl]
    have hacct2 : s.acct ((Txn.Withdraw c t a).client_id) = acct := by
      simp [Ledger.acct, Txn.client_id, hl]
    constructor
    · rw [deposit_frozen s (Txn.Deposit c t a) (by rw [hacct]; exact hf)]
      rw [hacct]
      rfl
    · rw [withdraw_frozen s (Txn.Withdraw c t a) (by rw [hacct2]; exact hf)]
      rw [hacct2]
      rfl
  · intro s cr t ref acct hl hf hhist hdisp hheld hav
    have hacct : s.acct ref.client_id = acct := by simp [Ledger.acct, hl]
    rw [resolve_success s cr t ref hhist (by rw [hacct]; exact hdisp)
      (by rw [hacct]; exact hheld) (by rw [hacct]; exact hav)]
    rw [hacct]
  · intro s cb t ref acct hl hf hhist hdisp hheld
    have hacct : s.acct ref.client_id = acct := by simp [Ledger.acct, hl]
    rw [chargeback_success s cb t ref hhist (by rw [hacct]; exact hdisp)
      (by rw [hacct]; exact hheld)]
    rw [hacct]

/-- Witness for C7 at `sample5` (frozen account 1 with 7 available, 5 held,
txn 2 disputed): the frozen deposit and withdrawal leave the balances alone,
while resolve and chargeback still apply in full. -/
theorem frozen_blocks_only_deposit_withdraw_witness :
    (Ledger.deposit sample5 (Txn.Deposit 1 9 4) = .ok
        ({ accounts := minsert sample5.accounts 1 (⟨7, 5, {2}, true⟩ : Account),
           txn_history := minsert sample5.txn_history 9 (Txn.Deposit 1 9 4) }) ∧
      Ledger.withdraw sample5 (Txn.Withdraw 1 9 4) = .ok
        ({ accounts := minsert sample5.accounts 1 (⟨7, 5, {2}, true⟩ : Account),
           txn_history := minsert sample5.txn_history 9 (Txn.Withdraw 1 9 4) })) ∧
    Ledger.resolve sample5 (Txn.Resolve 1 2) = .ok
      ({ sample5 with accounts := minsert sample5.accounts (Txn.Deposit 1 2 5).client_id
                                    (⟨(7 : Nat) + 5, (5 : Nat) - 5,
                                      ({2} : Finset Nat).erase 2, true⟩ : Account) }) ∧
    Ledger.chargeback sample5 (Txn.ChargeBack 1 2) = .ok
      ({ sample5 with accounts := minsert sample5.accounts (Txn.Deposit 1 2 5).client_id
                                    (⟨(7 : Nat), (5 : Nat) - 5,
                                      ({2} : Finset Nat).erase 2, true⟩ : Account) }) :=
  ⟨frozen_blocks_only_deposit_withdraw.1 sample5 1 9 4 ⟨7, 5, {2}, true⟩
      (by decide) (by decide),
   frozen_blocks_only_deposit_withdraw.2.1 sample5 1 2 (Txn.Deposit 1 2 5) ⟨7, 5, {2}, true⟩
      (by decide) (by decide) (by decide) (by decide) (by decide) (by norm_num [U128, Txn.amount]),
   frozen_blocks_only_deposit_withdraw.2.2 sample5 1 2 (Txn.Deposit 1 2 5) ⟨7, 5, {2}, true⟩
      (by decide) (by decide) (by decide) (by decide) (by decide)⟩

/-- Claim C9: a successful dispute of deposit `t` immediately followed by a
resolve of `t` restores the owning account's available and held balances to
their pre-dispute values, and `t` is no longer in the dispute set.  The side
conditions `a ≤ available`, `held + a < 2^128` make the dispute succeed, and
`available < 2^128` is the `u128` width bound on the stored balance. -/
theorem resolve_reverses_dispute :
    ∀ (s : Ledger) (cd cr t c tid a : Nat),
      mlookup s.txn_history t = some (Txn.Deposit c tid a) →
      a ≤ (s.acct c).available →
      (s.acct c).held + a < U128 →
      (s.acct c).available < U128 →
      ∃ s1 s2, Ledger.dispute s (Txn.Dispute cd t) = .ok s1 ∧
        Ledger.resolve s1 (Txn.Resolve cr t) = .ok s2 ∧
        ∃ acct2, mlookup s2.accounts c = some acct2 ∧
          acct2.available = (s.acct c).available ∧
          acct2.held = (s.acct c).held ∧
          t ∉ acct2.disputes := by
  intro s cd cr t c tid a hhist hav hheld havU
  have h1 := dispute_success s cd t c tid a hhist hav hheld
  set s1 : Ledger :=
    { s with accounts := minsert s.accounts c
                           ({ available := (s.acct c).available - a, held := (s.acct c).held + a,
                              disputes := insert t (s.acct c).disputes, frozen := (s.acct c).frozen }) } with hs1
  have hacct1 : s1.acct ((Txn.Deposit c tid a).client_id)
      = ({ available := (s.acct c).available - a, held := (s.acct c).held + a,
           disputes := insert t (s.acct c).disputes, frozen := (s.acct c).frozen } : Account) := by
    simp only [Ledger.acct, hs1, Txn.client_id]
    rw [mlookup_minsert_self]
    rfl
  have h2 := resolve_success s1 cr t (Txn.Deposit c tid a)
    (show mlookup s1.txn_history t = some (Txn.Deposit c tid a) from hhist)
    (by rw [hacct1]; exact Finset.mem_insert_self t _)
    (by rw [hacct1]; exact Nat.le_add_left a _)
    (by rw [hacct1]
        show ((s.acct c).available - a) + (Txn.Deposit c tid a).amount < U128
        have hc : ((s.acct c).available - a) + (Txn.Deposit c tid a).amount
            = (s.acct c).available := by
          show ((s.acct c).available - a) + a = (s.acct c).available
          omega
        rw [hc]
        exact havU)
  refine ⟨s1, _, h1, h2, ?_⟩
  refine ⟨_, mlookup_minsert_self _ _ _, ?_, ?_, ?_⟩
  · rw [hacct1]
    show ((s.acct c).available - a) + (Txn.Deposit c tid a).amount = (s.acct c).available
    show ((s.acct c).available - a) + a = (s.acct c).available
    omega
  · rw [hacct1]
    show ((s.acct c).held + a) - (Txn.Deposit c tid a).amount = (s.acct c).held
    show ((s.acct c).held + a) - a = (s.acct c).held
    omega
  · rw [hacct1]
    exact Finset.not_mem_erase t _

/-- Witness for C9 at `sample1`: dispute then resolve of txn 1 (deposit of 5
owned by client 2 holding 10 available). -/
theorem resolve_reverses_dispute_witness :
    ∃ s1 s2, Ledger.dispute sample1 (Txn.Dispute 9 1) = .ok s1 ∧
      Ledger.resolve s1 (Txn.Resolve 8 1) = .ok s2 ∧
      ∃ acct2, mlookup s2.accounts 2 = some acct2 ∧
        acct2.available = (sample1.acct 2).available ∧
        acct2.held = (sample1.acct 2).held ∧
        1 ∉ acct2.disputes :=
  resolve_reverses_dispute sample1 9 8 1 2 1 5 (by decide) (by decide)
    (by norm_num [U128, sample1, Ledger.acct, mlookup])
    (by norm_num [U128, sample1, Ledger.acct, mlookup])

/-- Claim C10, counterexample: transaction 1 (a deposit of 5, already in the
dispute set) is disputed a second time while the account has available 5 ≥ 5
but `held = u128::MAX`.  The claim's first branch predicts the dispute
succeeds and doubles the held funds; instead `add_held` overflows and the
run aborts with an arithmetic error. -/
theorem second_dispute_held_overflow_errors :
    Ledger.dispute
      (⟨[(1, ⟨5, U128 - 1, {1}, false⟩)], [(1, Txn.Deposit 1 1 5)]⟩ : Ledger)
      (Txn.Dispute 1 1) = .error (.ExternalErr ("limit exceeded")) := by
  rfl

/-- Claim C10 (amended): dispute does not detect an existing dispute of the
same transaction.  When `t` is already in the owning account's dispute set, a
second dispute record referencing `t` applies the full effect again — when
available is at least `a` and `held + a` does not overflow `u128` it again
subtracts `a` from available and adds `a` to held; otherwise (available less
than `a`, or the held addition overflowing) it aborts the run with an
arithmetic error. -/
theorem dispute_not_idempotent :
    ∀ (s : Ledger) (cd t c tid a : Nat),
      mlookup s.txn_history t = some (Txn.Deposit c tid a) →
      t ∈ (s.acct c).disputes →
      ((a ≤ (s.acct c).available ∧ (s.acct c).held + a < U128 →
        Ledger.dispute s (Txn.Dispute cd t) = .ok
          ({ s with accounts := minsert s.accounts c
                                  ({ available := (s.acct c).available - a, held := (s.acct c).held + a,
                                     disputes := insert t (s.acct c).disputes,
                                     frozen := (s.acct c).frozen }) })) ∧
       (∀ rest : List Txn,
        (s.acct c).available < a ∨ U128 ≤ (s.acct c).held + a →
        ∃ e, Ledger.dispute s (Txn.Dispute cd t) = .error e ∧
          Ledger.processAll s (Txn.Dispute cd t :: rest) = .error e)) := by
  intro s cd t c tid a hhist _hdisp
  constructor
  · intro ⟨hav, hheld⟩
    exact dispute_success s cd t c tid a hhist hav hheld
  · intro rest hfail
    obtain ⟨e, he⟩ := dispute_fail s cd t c tid a hhist hfail
    exact ⟨e, he, processAll_cons_err s _ rest e he⟩

/-- Witness for C10: the effect branch at `sample6` (available 5, held 5,
txn 1 already disputed) and the abort branch at `sample7` (available 3 < 5). -/
theorem dispute_not_idempotent_witness :
    Ledger.dispute sample6 (Txn.Dispute 1 1) = .ok
      ({ sample6 with accounts := minsert sample6.accounts 1
                                    ({ available := (sample6.acct 1).available - 5,
                                       held := (sample6.acct 1).held + 5,
                                       disputes := insert 1 (sample6.acct 1).disputes,
                                       frozen := (sample6.acct 1).frozen }) }) ∧
    (∃ e, Ledger.dispute sample7 (Txn.Dispute 1 1) = .error e ∧
      Ledger.processAll sample7 [Txn.Dispute 1 1, Txn.Deposit 1 9 1] = .error e) :=
  ⟨(dispute_not_idempotent sample6 1 1 1 1 5 (by decide) (by decide)).1
      ⟨by decide, by norm_num [U128, sample6, Ledger.acct, mlookup]⟩,
   (dispute_not_idempotent sample7 1 1 1 1 5 (by decide) (by decide)).2
      [Txn.Deposit 1 9 1] (Or.inl (by decide))⟩

/-! Lemmas about `splitDot` and `rustParseU128`, for the amount codec
claims. -/

theorem splitDot_no_dot (l : List Char) (h : '.' ∉ l) : splitDot l = [l] := by
  induction l with
  | nil => rfl
  | cons c rest ih =>
    unfold splitDot
    rw [ih (fun hm => h (List.mem_cons_of_mem c hm))]
    rw [if_neg (fun hc => h (by rw [hc]; exact List.mem_cons_self _ _))]
    rfl

theorem splitDot_ne_nil (l : List Char) : splitDot l ≠ [] := by
  cases l with
  | nil => exact fun h => List.noConfusion h
  | cons c rest =>
    unfold splitDot
    by_cases hc : c = '.'
    · rw [if_pos hc]
      exact fun h => List.noConfusion h
    · rw [if_neg hc]
      exact fun h => List.noConfusion h

theorem splitDot_append (a b : List Char) (h : '.' ∉ a) :
    splitDot (a ++ '.' :: b) = a :: splitDot b := by
  induction a with
  | nil =>
    show splitDot ('.' :: b) = [] :: splitDot b
    conv_lhs => unfold splitDot
    rw [if_pos rfl]
  | cons c rest ih =>
    show splitDot (c :: (rest ++ '.' :: b)) = (c :: rest) :: splitDot b
    conv_lhs => unfold splitDot
    rw [ih (fun hm => h (List.mem_cons_of_mem c hm))]
    rw [if_neg (fun hc => h (by rw [hc]; exact List.mem_cons_self _ _))]
    rfl

theorem splitDot_length (l : List Char) :
    (splitDot l).length = l.count '.' + 1 := by
  induction l with
  | nil => rfl
  | cons c rest ih =>
    unfold splitDot
    by_cases hc : c = '.'
    · subst hc
      rw [if_pos rfl]
      have hcount : ('.' :: rest).count '.' = rest.count '.' + 1 := by
        simp [List.count_cons]
      rw [hcount, List.length_cons, ih]
    · rw [if_neg hc]
      rcases hs : splitDot rest with _ | ⟨h2, t2⟩
      · exact absurd hs (splitDot_ne_nil rest)
      · rw [hs] at ih
        have hcount : (c :: rest).count '.' = rest.count '.' := by
          simp [List.count_cons, hc]
        rw [hcount, ← ih]
        simp

theorem isDig_ne_dot (c : Char) (h : isDig c = true) : c ≠ '.' := by
  intro hc
  subst hc
  exact absurd h (by decide)

theorem isDig_ne_plus (c : Char) (h : isDig c = true) : c ≠ '+' := by
  intro hc
  subst hc
  exact absurd h (by decide)

theorem no_dot_of_digits (l : List Char) (h : ∀ c ∈ l, isDig c = true) : '.' ∉ l :=
  fun hm => isDig_ne_dot '.' (h _ hm) rfl

theorem stripPlus_of_digits (l : List Char) (hd : ∀ c ∈ l, isDig c = true) :
    stripPlus l = l := by
  cases l with
  | nil => rfl
  | cons c rest =>
    show (if c = '+' then rest else c :: rest) = c :: rest
    rw [if_neg (isDig_ne_plus c (hd c (List.mem_cons_self c rest)))]

theorem rustParse_digits (l : List Char) (hne : l ≠ [])
    (hd : ∀ c ∈ l, isDig c = true) :
    rustParseU128 l = if digitsToNat l < U128 then some (digitsToNat l) else none := by
  unfold rustParseU128
  rw [stripPlus_of_digits l hd]
  rw [if_neg (by simp [hne]), if_pos (by simpa using hd)]

theorem parse_dotted (before after : List Char) (hb : '.' ∉ before) (ha : '.' ∉ after) :
    amount_from_string (before ++ '.' :: after) =
      match rustParseU128 (before ++
        [after.getD 0 '0', after.getD 1 '0', after.getD 2 '0', after.getD 3 '0']) with
      | some val => .ok (some val)
      | none => .error ("failed to parse decimal") := by
  unfold amount_from_string
  rw [if_neg (by simp)]
  rw [splitDot_append before after hb, splitDot_no_dot after ha]

/-- Claim C3, counterexample: `"1.0000abc"` contains the non-numeric content
`abc`, yet parsing succeeds with amount 10000 — the characters beyond the
fourth fractional position are truncated before any validation. -/
theorem junk_after_fourth_decimal_accepted :
    amount_from_string ("1.0000abc".toList) = .ok (some 10000) ∧
    'a' ∈ "1.0000abc".toList ∧ isDig 'a' = false := by
  refine ⟨rfl, by decide, rfl⟩

/-- Claim C3 (amended): parsing fails for every input with more than one
decimal point; for an input with exactly one decimal point it fails exactly
when the integer part concatenated with the first four fractional characters
(zero-padded) is not a valid non-negative integer numeral; and characters
beyond the fourth fractional position are discarded, so non-numeric content
located only there does not cause a failure. -/
theorem amount_parse_malformed :
    (∀ s : List Char, 2 ≤ s.count '.' →
      amount_from_string s = .error ("failed to parse decimal")) ∧
    (∀ before after : List Char, '.' ∉ before → '.' ∉ after →
      ((∃ err, amount_from_string (before ++ '.' :: after) = .error err) ↔
        rustParseU128 (before ++ [after.getD 0 '0', after.getD 1 '0',
          after.getD 2 '0', after.getD 3 '0']) = none)) ∧
    (∀ before after junk : List Char, '.' ∉ before → '.' ∉ after → '.' ∉ junk →
      after.length = 4 →
      amount_from_string (before ++ '.' :: (after ++ junk))
        = amount_from_string (before ++ '.' :: after)) := by
  refine ⟨?_, ?_, ?_⟩
  · intro s h2
    have hne : s ≠ [] := by
      rintro rfl
      simp at h2
    have hlen := splitDot_length s
    unfold amount_from_string
    rw [if_neg (by simp [hne])]
    rcases hl : splitDot s with _ | ⟨x, _ | ⟨y, _ | ⟨z, t⟩⟩⟩
    · exact absurd hl (splitDot_ne_nil s)
    · rw [hl] at hlen
      simp at hlen
      omega
    · rw [hl] at hlen
      simp at hlen
      omega
    · rfl
  · intro before after hb ha
    rw [parse_dotted before after hb ha]
    cases h : rustParseU128 (before ++ [after.getD 0 '0', after.getD 1 '0',
        after.getD 2 '0', after.getD 3 '0']) with
    | none => simp
    | some v => simp
  · intro before after junk hb ha hj hlen
    have haj : '.' ∉ after ++ junk := fun hm =>
      (List.mem_append.mp hm).elim (fun h1 => ha h1) (fun h2 => hj h2)
    rw [parse_dotted before (after ++ junk) hb haj, parse_dotted before after hb ha]
    rcases after with _ | ⟨a1, _ | ⟨a2, _ | ⟨a3, _ | ⟨a4, rest5⟩⟩⟩⟩ <;> simp at hlen
    subst hlen
    rfl

/-- Witness for C3: a two-dot input fails, an input with a letter in the
integer part fails, and junk after the fourth fractional digit is ignored. -/
theorem amount_parse_malformed_witness :
    amount_from_string ("1.2.3".toList) = .error ("failed to parse decimal") ∧
    (∃ err, amount_from_string ("1a".toList ++ '.' :: "5".toList) = .error err) ∧
    amount_from_string ("1".toList ++ '.' :: ("0000".toList ++ "x".toList))
      = amount_from_string ("1".toList ++ '.' :: "0000".toList) :=
  ⟨amount_parse_malformed.1 ("1.2.3".toList) (by decide),
   (amount_parse_malformed.2.1 ("1a".toList) ("5".toList)
      (by decide) (by decide)).mpr (by decide),
   amount_parse_malformed.2.2 ("1".toList) ("0000".toList) ("x".toList)
      (by decide) (by decide) (by decide) (by decide)⟩

/-! Lemmas about digit strings and the decimal formatter, for claim C8. -/

theorem digitsToNat_aux (l : List Char) (acc : Nat) :
    l.foldl (fun a c => a * 10 + digitVal c) acc = acc * 10 ^ l.length + digitsToNat l := by
  induction l generalizing acc with
  | nil => simp [digitsToNat]
  | cons c rest ih =>
    show rest.foldl _ (acc * 10 + digitVal c) = _
    rw [ih (acc * 10 + digitVal c)]
    have h2 : digitsToNat (c :: rest) = digitVal c * 10 ^ rest.length + digitsToNat rest := by
      show rest.foldl _ (0 * 10 + digitVal c) = _
      rw [ih (0 * 10 + digitVal c)]
      ring
    rw [h2, List.length_cons]
    ring

theorem digitsToNat_cons (c : Char) (l : List Char) :
    digitsToNat (c :: l) = digitVal c * 10 ^ l.length + digitsToNat l := by
  show l.foldl _ (0 * 10 + digitVal c) = _
  rw [digitsToNat_aux]
  ring

theorem digitsToNat_append (a b : List Char) :
    digitsToNat (a ++ b) = digitsToNat a * 10 ^ b.length + digitsToNat b := by
  show (a ++ b).foldl _ 0 = _
  rw [List.foldl_append]
  rw [digitsToNat_aux]
  rfl

theorem digitVal_lt (c : Char) (h : isDig c = true) : digitVal c < 10 := by
  simp only [isDig, Bool.and_eq_true, decide_eq_true_eq] at h
  unfold digitVal
  omega

theorem digitsToNat_lt (l : List Char) (h : ∀ c ∈ l, isDig c = true) :
    digitsToNat l < 10 ^ l.length := by
  induction l with
  | nil => simp [digitsToNat]
  | cons c rest ih =>
    rw [digitsToNat_cons, List.length_cons]
    have h1 := digitVal_lt c (h c (List.mem_cons_self _ _))
    have h2 := ih (fun x hx => h x (List.mem_cons_of_mem _ hx))
    calc digitVal c * 10 ^ rest.length + digitsToNat rest
        < digitVal c * 10 ^ rest.length + 10 ^ rest.length := by omega
      _ = (digitVal c + 1) * 10 ^ rest.length := by ring
      _ ≤ 10 * 10 ^ rest.length := Nat.mul_le_mul_right _ (by omega)
      _ = 10 ^ (rest.length + 1) := by ring

theorem digitsToNat_replicate_zero (k : Nat) :
    digitsToNat (List.replicate k '0') = 0 := by
  induction k with
  | zero => rfl
  | succ n ih =>
    rw [List.replicate_succ, digitsToNat_cons, ih]
    simp [digitVal]

theorem natReprAux_append (n : Nat) : ∀ acc : List Char,
    natReprAux n acc = natReprAux n [] ++ acc := by
  induction n using Nat.strong_induction_on with
  | _ n ih =>
    intro acc
    by_cases h : n < 10
    · rw [natReprAux, if_pos h, natReprAux, if_pos h]
      rfl
    · have hlt : n / 10 < n := Nat.div_lt_self (by omega) (by omega)
      rw [natReprAux, if_neg h, ih (n / 10) hlt]
      conv_rhs => rw [natReprAux, if_neg h, ih (n / 10) hlt]
      simp

theorem natRepr_small (n : Nat) (h : n < 10) : natRepr n = [Nat.digitChar n] := by
  unfold natRepr
  rw [natReprAux, if_pos h]

theorem natRepr_step (n : Nat) (h : 10 ≤ n) :
    natRepr n = natRepr (n / 10) ++ [Nat.digitChar (n % 10)] := by
  unfold natRepr
  rw [natReprAux, if_neg (by omega), natReprAux_append]

theorem natRepr_ne_nil (n : Nat) : natRepr n ≠ [] := by
  by_cases h : n < 10
  · rw [natRepr_small n h]
    exact fun hc => List.noConfusion hc
  · rw [natRepr_step n (by omega)]
    simp

theorem natRepr_len_le (k : Nat) : ∀ n, 0 < k → n < 10 ^ k → (natRepr n).length ≤ k := by
  induction k with
  | zero => omega
  | succ k ih =>
    intro n _ hn
    by_cases h : n < 10
    · rw [natRepr_small n h]
      simp
    · have hk0 : 0 < k := by
        rcases Nat.eq_zero_or_pos k with hk | hk
        · subst hk
          norm_num at hn
          omega
        · exact hk
      have hdiv : n / 10 < 10 ^ k := by
        have hp : 10 ^ (k + 1) = 10 ^ k * 10 := by ring
        omega
      rw [natRepr_step n (by omega), List.length_append]
      have := ih (n / 10) hk0 hdiv
      simp only [List.length_singleton]
      omega

theorem natDigitsFix_len (k : Nat) : ∀ f, (natDigitsFix k f).length = k := by
  induction k with
  | zero => intro f; rfl
  | succ n ih =>
    intro f
    show (natDigitsFix n (f / 10) ++ [Nat.digitChar (f % 10)]).length = n + 1
    rw [List.length_append, ih]
    rfl

theorem natDigitsFix_zero (k : Nat) : natDigitsFix k 0 = List.replicate k '0' := by
  induction k with
  | zero => rfl
  | succ n ih =>
    show natDigitsFix n (0 / 10) ++ [Nat.digitChar (0 % 10)] = _
    rw [Nat.zero_div, ih, List.replicate_succ' n '0']
    rfl

theorem natReprAux_spec (k : Nat) : ∀ (i f : Nat) (acc : List Char), 0 < i → f < 10 ^ k →
    natReprAux (i * 10 ^ k + f) acc = natReprAux i (natDigitsFix k f ++ acc) := by
  induction k with
  | zero =>
    intro i f acc hi hf
    have hf0 : f = 0 := by omega
    subst hf0
    show natReprAux (i * 1 + 0) acc = natReprAux i ([] ++ acc)
    rw [Nat.mul_one, Nat.add_zero, List.nil_append]
  | succ k ih =>
    intro i f acc hi hf
    have hp : 10 ^ (k + 1) = 10 ^ k * 10 := by ring
    have hge : ¬ i * 10 ^ (k + 1) + f < 10 := by
      have h1 : 10 ≤ 10 ^ (k + 1) := by
        calc (10 : Nat) = 10 ^ 1 := by norm_num
        _ ≤ 10 ^ (k + 1) := Nat.pow_le_pow_right (by omega) (by omega)
      have h2 : 10 ^ (k + 1) ≤ i * 10 ^ (k + 1) := Nat.le_mul_of_pos_left _ hi
      omega
    have hn : i * 10 ^ (k + 1) + f = 10 * (i * 10 ^ k) + f := by ring
    have hmod : (i * 10 ^ (k + 1) + f) % 10 = f % 10 := by
      rw [hn, Nat.mul_add_mod]
    have hdiv : (i * 10 ^ (k + 1) + f) / 10 = i * 10 ^ k + f / 10 := by
      rw [hn]
      omega
    have hfd : f / 10 < 10 ^ k := by omega
    rw [natReprAux, if_neg hge, hmod, hdiv, ih i (f / 10) _ hi hfd]
    show _ = natReprAux i ((natDigitsFix k (f / 10) ++ [Nat.digitChar (f % 10)]) ++ acc)
    rw [List.append_assoc]
    rfl

theorem natRepr_split (i f : Nat) (hi : 0 < i) (hf : f < 10000) :
    natRepr (i * 10000 + f) = natRepr i ++ natDigitsFix 4 f := by
  have h4 : (10000 : Nat) = 10 ^ 4 := by norm_num
  unfold natRepr
  rw [h4, natReprAux_spec 4 i f [] hi (by omega), natReprAux_append, List.append_nil]

theorem natDigitsFix_pad (k : Nat) : ∀ f, 0 < k → f < 10 ^ k →
    natDigitsFix k f = List.replicate (k - (natRepr f).length) '0' ++ natRepr f := by
  induction k with
  | zero => omega
  | succ k ih =>
    intro f _ hf
    by_cases h : f < 10
    · show natDigitsFix k (f / 10) ++ [Nat.digitChar (f % 10)] = _
      rw [Nat.div_eq_of_lt h, Nat.mod_eq_of_lt h, natDigitsFix_zero, natRepr_small f h]
      rw [List.length_singleton]
      have harith : k + 1 - 1 = k := rfl
      rw [harith]
    · have hk0 : 0 < k := by
        rcases Nat.eq_zero_or_pos k with hk | hk
        · subst hk
          norm_num at hf
          omega
        · exact hk
      have hdiv : f / 10 < 10 ^ k := by
        have hp : 10 ^ (k + 1) = 10 ^ k * 10 := by ring
        omega
      show natDigitsFix k (f / 10) ++ [Nat.digitChar (f % 10)] = _
      rw [ih (f / 10) hk0 hdiv, natRepr_step f (by omega), List.length_append]
      rw [List.length_singleton, List.append_assoc]
      have harith : k + 1 - ((natRepr (f / 10)).length + 1) = k - (natRepr (f / 10)).length := by
        omega
      rw [harith]

theorem format_split (i f : Nat) (hf : f < 10000) :
    u128_to_decimal_str (i * 10000 + f) = natRepr i ++ '.' :: natDigitsFix 4 f := by
  rcases Nat.eq_zero_or_pos i with hi | hi
  · subst hi
    rw [Nat.zero_mul, Nat.zero_add]
    have hlen : (natRepr f).length ≤ 4 :=
      natRepr_len_le 4 f (by omega) (by norm_num; omega)
    have hlen4 : (padLeft4 (natRepr f)).length = 4 := by
      unfold padLeft4
      rw [List.length_append, List.length_replicate]
      omega
    unfold u128_to_decimal_str
    rw [hlen4]
    norm_num
    rw [natDigitsFix_pad 4 f (by omega) (by norm_num; omega), natRepr_small 0 (by omega)]
    rfl
  · have hrepr := natRepr_split i f hi hf
    have hlen : (padLeft4 (natRepr (i * 10000 + f))).length
        = (natRepr i).length + 4 := by
      unfold padLeft4
      rw [List.length_append, List.length_replicate, hrepr, List.length_append,
        natDigitsFix_len]
      have h1 : 1 ≤ (natRepr i).length := by
        rcases hnil : natRepr i with _ | ⟨x, xs⟩
        · exact absurd hnil (natRepr_ne_nil i)
        · simp
      omega
    have hpad : padLeft4 (natRepr (i * 10000 + f)) = natRepr i ++ natDigitsFix 4 f := by
      unfold padLeft4
      rw [hrepr, List.length_append, natDigitsFix_len]
      have h1 : 4 - ((natRepr i).length + 4) = 0 := by omega
      rw [h1]
      rfl
    unfold u128_to_decimal_str
    rw [hlen, hpad]
    have harith : (natRepr i).length + 4 - 4 = (natRepr i).length := by omega
    rw [harith, List.take_left, List.drop_left]
    rw [if_neg (by simp [natRepr_ne_nil i])]

theorem digitChar_digitVal (c : Char) (h : isDig c = true) :
    Nat.digitChar (digitVal c) = c := by
  simp only [isDig, Bool.and_eq_true, decide_eq_true_eq] at h
  obtain ⟨h1, h2⟩ := h
  unfold digitVal
  rw [← Char.ofNat_toNat c]
  generalize c.toNat = n at h1 h2 ⊢
  interval_cases n <;> rfl

theorem natDigitsFix_inv (l : List Char) (h : ∀ c ∈ l, isDig c = true) :
    natDigitsFix l.length (digitsToNat l) = l := by
  induction l using List.reverseRecOn with
  | nil => rfl
  | append_singleton l c ih =>
    have hd : ∀ x ∈ l, isDig x = true := fun x hx => h x (by simp [hx])
    have hc : isDig c = true := h c (by simp)
    have hdv := digitVal_lt c hc
    have hval : digitsToNat (l ++ [c]) = digitsToNat l * 10 + digitVal c := by
      rw [digitsToNat_append]
      have h1 : digitsToNat [c] = digitVal c := by
        rw [digitsToNat_cons]
        simp [digitsToNat]
      rw [h1, List.length_singleton]
      ring
    have hlen : (l ++ [c]).length = l.length + 1 := by simp
    rw [hlen]
    show natDigitsFix l.length (digitsToNat (l ++ [c]) / 10)
        ++ [Nat.digitChar (digitsToNat (l ++ [c]) % 10)] = l ++ [c]
    have hdiv : digitsToNat (l ++ [c]) / 10 = digitsToNat l := by
      rw [hval]
      omega
    have hmod : digitsToNat (l ++ [c]) % 10 = digitVal c := by
      rw [hval]
      omega
    rw [hdiv, hmod, ih hd, digitChar_digitVal c hc]

theorem getD_pad (after : List Char) (h : after.length ≤ 4) :
    [after.getD 0 '0', after.getD 1 '0', after.getD 2 '0', after.getD 3 '0']
      = after ++ List.replicate (4 - after.length) '0' := by
  rcases after with _ | ⟨a1, _ | ⟨a2, _ | ⟨a3, _ | ⟨a4, rest5⟩⟩⟩⟩
  · rfl
  · rfl
  · rfl
  · rfl
  · simp at h
    subst h
    rfl

theorem parse_nodot (s : List Char) (hne : s ≠ []) (hnd : '.' ∉ s) :
    amount_from_string s =
      match rustParseU128 s with
      | none => .error ("failed to parse decimal")
      | some parsed =>
        match checked_mul10000 parsed with
        | some val => .ok (some val)
        | none => .error ("failed to parse decimal: limit exceeded") := by
  unfold amount_from_string
  rw [if_neg (by simp [hne]), splitDot_no_dot s hnd]

/-- Claim C8, counterexample: `"00.5"` is a valid decimal string with one
fractional digit, parsing to the amount 5000, but the formatter renders that
amount as `"0.5000"`, not the claimed normalized form `"00.5000"` (the
integer part's leading zero is not preserved). -/
theorem leading_zeros_not_roundtripped :
    amount_from_string ("00.5".toList) = .ok (some 5000) ∧
    u128_to_decimal_str 5000 ≠ "00.5000".toList := by
  constructor
  · rfl
  · have h5000 : natRepr 5000 = ['5', '0', '0', '0'] := by
      rw [natRepr_step 5000 (by norm_num)]
      norm_num
      rw [natRepr_step 500 (by norm_num)]
      norm_num
      rw [natRepr_step 50 (by norm_num)]
      norm_num
      rw [natRepr_small 5 (by norm_num)]
      rfl
    intro hc
    rw [show u128_to_decimal_str 5000
        = (if ((padLeft4 (natRepr 5000)).take ((padLeft4 (natRepr 5000)).length - 4)).isEmpty
           then ['0']
           else (padLeft4 (natRepr 5000)).take ((padLeft4 (natRepr 5000)).length - 4))
          ++ '.' :: (padLeft4 (natRepr 5000)).drop ((padLeft4 (natRepr 5000)).length - 4)
      from rfl, h5000] at hc
    exact absurd hc (by decide)

/-- Claim C8 (amended): for every decimal string made of digits with at most
one decimal point and at most 4 fractional digits whose parse succeeds,
formatting the parsed Amount yields the canonical normalized form — the
integer part rendered without leading zeros (`"0"` when empty or zero), and
the fractional part right-padded to exactly 4 digits; and parsing truncates
without rounding, so `"0.123499999"` parses to the same Amount as
`"0.1234"`. -/
theorem parse_format_roundtrip :
    (∀ (before after : List Char) (v : Nat),
      (∀ c ∈ before, isDig c = true) →
      (∀ c ∈ after, isDig c = true) →
      after.length ≤ 4 →
      amount_from_string (before ++ '.' :: after) = .ok (some v) →
      u128_to_decimal_str v
        = natRepr (digitsToNat before)
            ++ '.' :: (after ++ List.replicate (4 - after.length) '0')) ∧
    (∀ (s : List Char) (v : Nat), s ≠ [] →
      (∀ c ∈ s, isDig c = true) →
      amount_from_string s = .ok (some v) →
      u128_to_decimal_str v
        = natRepr (digitsToNat s) ++ '.' :: List.replicate 4 '0') ∧
    amount_from_string ("0.123499999".toList) = amount_from_string ("0.1234".toList) := by
  refine ⟨?_, ?_, rfl⟩
  · intro before after v hb ha hlen hparse
    have hPd : ∀ c ∈ after ++ List.replicate (4 - after.length) '0', isDig c = true := by
      intro c hm
      rcases List.mem_append.mp hm with h1 | h2
      · exact ha c h1
      · rw [List.eq_of_mem_replicate h2]
        rfl
    have hPlen : (after ++ List.replicate (4 - after.length) '0').length = 4 := by
      rw [List.length_append, List.length_replicate]
      omega
    have hbPd : ∀ c ∈ before ++ (after ++ List.replicate (4 - after.length) '0'),
        isDig c = true := by
      intro c hm
      rcases List.mem_append.mp hm with h1 | h2
      · exact hb c h1
      · exact hPd c h2
    have hbPne : before ++ (after ++ List.replicate (4 - after.length) '0') ≠ [] := by
      intro hc
      have := congrArg List.length hc
      rw [List.length_append, hPlen] at this
      simp at this
    rw [parse_dotted before after (no_dot_of_digits _ hb) (no_dot_of_digits _ ha),
      getD_pad after hlen, rustParse_digits _ hbPne hbPd] at hparse
    by_cases hU : digitsToNat (before ++ (after ++ List.replicate (4 - after.length) '0')) < U128
    · rw [if_pos hU] at hparse
      simp only [Except.ok.injEq, Option.some.injEq] at hparse
      subst hparse
      have hF : digitsToNat (after ++ List.replicate (4 - after.length) '0') < 10000 := by
        have := digitsToNat_lt _ hPd
        rw [hPlen] at this
        norm_num at this
        exact this
      rw [digitsToNat_append, hPlen]
      have h4 : (10 : Nat) ^ 4 = 10000 := by norm_num
      rw [h4, format_split _ _ hF]
      have hfix := natDigitsFix_inv _ hPd
      rw [hPlen] at hfix
      rw [hfix]
    · rw [if_neg hU] at hparse
      exact absurd hparse (by simp)
  · intro s v hne hd hparse
    rw [parse_nodot s hne (no_dot_of_digits _ hd),
      rustParse_digits s hne hd] at hparse
    by_cases hU : digitsToNat s < U128
    · rw [if_pos hU] at hparse
      unfold checked_mul10000 at hparse
      simp only [Except.ok.injEq, Option.some.injEq] at hparse
      by_cases hm : digitsToNat s * 10000 < U128
      · rw [if_pos hm] at hparse
        simp only [Except.ok.injEq, Option.some.injEq] at hparse
        subst hparse
        have hv : digitsToNat s * 10000 = digitsToNat s * 10000 + 0 := by omega
        rw [hv, format_split _ _ (by omega), natDigitsFix_zero]
      · rw [if_neg hm] at hparse
        exact absurd hparse (by simp)
    · rw [if_neg hU] at hparse
      exact absurd hparse (by simp)

/-- Witness for C8: `"12.5"` parses to 125000 and formats back to
`"12.5000"`, and the integer string `"7"` parses to 70000 and formats to
`"7.0000"`. -/
theorem parse_format_roundtrip_witness :
    u128_to_decimal_str 125000
      = natRepr (digitsToNat ("12".toList))
          ++ '.' :: ("5".toList ++ List.replicate 3 '0') ∧
    u128_to_decimal_str 70000
      = natRepr (digitsToNat ("7".toList)) ++ '.' :: List.replicate 4 '0' :=
  ⟨parse_format_roundtrip.1 ("12".toList) ("5".toList) 125000
      (by decide) (by decide) (by decide) (by decide),
   parse_format_roundtrip.2.1 ("7".toList) 70000 (by decide) (by decide) (by decide)⟩

end ToyTxn
